import Mathlib

/-!
Shallow embedding of the `maxflow` Python wrapper (`src/maxflow.py`).

The repository ships a Python wrapper class `FlowGraph` plus a C extension
`maxflowhelper` (the core engine).  Only the wrapper is in the repository
sources; the core is modelled abstractly where needed.  Python floats are
modelled as exact rationals (every numeric value appearing in the claims is
an exact small number, on which float and rational arithmetic agree).
Python `dict`s (which preserve insertion order and have unique keys) are
modelled as association lists: `assocSet` replaces the first binding of an
existing key in place and appends a fresh key at the end, exactly like a
Python dict assignment; `assocFind` is dict lookup.  The aliasing of edge
records between `edgesbyid` and `edgesbyname` (both Python dicts store the
very same mutable 4-element list) is modelled by an arena `edges : List Edge`
holding the records, with both dicts mapping their keys to arena indices.
-/

namespace MaxFlowSpec

/-- The `GraphError` exception class of the wrapper, carrying its message. -/
structure GraphError where
  msg : String
deriving DecidableEq, Repr

instance {ε α : Type} [DecidableEq ε] [DecidableEq α] : DecidableEq (Except ε α) := fun x y =>
  match x, y with
  | Except.ok a, Except.ok b =>
    if h : a = b then Decidable.isTrue (congrArg Except.ok h)
    else Decidable.isFalse (fun hc => h (Except.ok.inj hc))
  | Except.error a, Except.error b =>
    if h : a = b then Decidable.isTrue (congrArg Except.error h)
    else Decidable.isFalse (fun hc => h (Except.error.inj hc))
  | Except.ok _, Except.error _ => Decidable.isFalse (fun hc => Except.noConfusion hc)
  | Except.error _, Except.ok _ => Decidable.isFalse (fun hc => Except.noConfusion hc)

/-- One edge record `[tailid, headid, capacity, flow]` of the wrapper. -/
structure Edge where
  tailid : Nat
  headid : Nat
  capacity : ℚ
  flow : ℚ
deriving DecidableEq, Repr

/-- The state of a `FlowGraph` object.  `edges` is the arena of shared
mutable edge records; `edgesbyid` and `edgesbyname` map their keys to arena
indices (modelling the Python dicts that alias the same record objects);
the remaining fields are the wrapper's dicts and counter verbatim. -/
structure FlowGraph where
  edges : List Edge
  edgesbyid : List ((Nat × Nat) × Nat)
  edgesbyname : List ((String × String) × Nat)
  vertexname2id : List (String × Nat)
  v2vertices : List (String × List String)
  vertices2v : List (String × List String)
  nextvertexid : Nat
deriving DecidableEq, Repr

/-- Python dict lookup on an association list. -/
def assocFind {K V : Type} [DecidableEq K] (m : List (K × V)) (k : K) : Option V :=
  match m with
  | [] => none
  | (k', v) :: rest => if k' = k then some v else assocFind rest k

/-- Python dict assignment `m[k] = v`: replaces the first binding of `k`
in place, or appends a fresh binding at the end (insertion order). -/
def assocSet {K V : Type} [DecidableEq K] (m : List (K × V)) (k : K) (v : V) :
    List (K × V) :=
  match m with
  | [] => [(k, v)]
  | (k', v') :: rest => if k' = k then (k, v) :: rest else (k', v') :: assocSet rest k v

/-- In-place mutation of the arena record at index `i`. -/
def modifyIdx {α : Type} (l : List α) (i : Nat) (f : α → α) : List α :=
  match l, i with
  | [], _ => []
  | a :: rest, 0 => f a :: rest
  | a :: rest, Nat.succ j => a :: modifyIdx rest j f

/-- Dereference an arena index.  In every state produced by the public
interface the stored indices are in range (invariant `Inv.idx_lt` below),
matching Python where the dicts hold the record object itself. -/
def arenaGet (es : List Edge) (i : Nat) : Edge :=
  es.getD i ⟨0, 0, 0, 0⟩

/-- `FlowGraph.__init__`: all dicts empty, `nextvertexid = 2`
(id 0 is reserved for source `"s"`, id 1 for sink `"t"`). -/
def emptyGraph : FlowGraph :=
  { edges := [], edgesbyid := [], edgesbyname := [], vertexname2id := [],
    v2vertices := [], vertices2v := [], nextvertexid := 2 }

/-- `FlowGraph.numvertices`. -/
def numvertices (g : FlowGraph) : Nat := g.nextvertexid

/-- `FlowGraph.numedges`. -/
def numedges (g : FlowGraph) : Nat := g.edgesbyid.length

/-- `FlowGraph._getvertexid`: returns the id of `vertex` and the updated
state.  `"s"` and `"t"` always map to 0 and 1 (re-registered on every call);
a known name keeps its id; a fresh name takes `nextvertexid`, which is then
incremented. -/
def _getvertexid (g : FlowGraph) (vertex : String) : Nat × FlowGraph :=
  if vertex = "s" then
    (0, { g with vertexname2id := assocSet g.vertexname2id "s" 0 })
  else if vertex = "t" then
    (1, { g with vertexname2id := assocSet g.vertexname2id "t" 1 })
  else
    match assocFind g.vertexname2id vertex with
    | some id => (id, g)
    | none =>
      (g.nextvertexid,
        { g with nextvertexid := g.nextvertexid + 1,
                 vertexname2id := assocSet g.vertexname2id vertex g.nextvertexid })

/-- `FlowGraph.alterflow`: sets (or, when `additive`, adds to) the flow
field of the edge record for `(tail, head)`; raises `GraphError` when there
is no such edge. -/
def alterflow (g : FlowGraph) (tail head : String) (flow : ℚ) (additive : Bool) :
    Except GraphError FlowGraph :=
  match assocFind g.edgesbyname (tail, head) with
  | some i =>
    if additive then
      Except.ok { g with edges := modifyIdx g.edges i (fun e => { e with flow := e.flow + flow }) }
    else
      Except.ok { g with edges := modifyIdx g.edges i (fun e => { e with flow := flow }) }
  | none => Except.error ⟨s!"there is no edge from {tail} to {head}"⟩

/-- `FlowGraph.addedge`: if the `(tail, head)` edge already exists its
capacity is increased by `cap` (when `increaseifexists`) or replaced by
`cap`; otherwise both endpoint names are resolved to ids, a fresh record
`[tailid, headid, cap, 0.0]` is allocated and registered in both dicts, and
the adjacency dicts gain the endpoints. -/
def addedge (g : FlowGraph) (tail head : String) (cap : ℚ)
    (increaseifexists : Bool) : FlowGraph :=
  match assocFind g.edgesbyname (tail, head) with
  | some i =>
    if increaseifexists then
      { g with edges := modifyIdx g.edges i (fun e => { e with capacity := e.capacity + cap }) }
    else
      { g with edges := modifyIdx g.edges i (fun e => { e with capacity := cap }) }
  | none =>
    let r1 := _getvertexid g tail
    let r2 := _getvertexid r1.2 head
    let tailid := r1.1
    let headid := r2.1
    let g2 := r2.2
    let idx := g2.edges.length
    { g2 with
      edges := g2.edges ++ [⟨tailid, headid, cap, 0⟩],
      edgesbyid := assocSet g2.edgesbyid (tailid, headid) idx,
      edgesbyname := assocSet g2.edgesbyname (tail, head) idx,
      v2vertices :=
        (match assocFind g2.v2vertices tail with
         | some l => assocSet g2.v2vertices tail (l ++ [head])
         | none => assocSet g2.v2vertices tail [head]),
      vertices2v :=
        (match assocFind g2.vertices2v head with
         | some l => assocSet g2.vertices2v head (l ++ [tail])
         | none => assocSet g2.vertices2v head [tail]) }

/-- `FlowGraph.calculatemaxflow`, parametric in the core engine.  The C
extension `maxflowhelper.maxflow` is not part of the repository sources, so
the core is a parameter: it receives the edge records and the vertex count
and returns the total flow together with the updated records.  The wrapper
first checks that vertices named `"s"` and `"t"` are registered and raises
`GraphError` without invoking the core otherwise.  The state component of
the result is the graph after the call (unchanged on the error path). -/
def calculatemaxflow (core : List Edge → Nat → ℚ × List Edge) (g : FlowGraph) :
    Except GraphError ℚ × FlowGraph :=
  if (assocFind g.vertexname2id "s").isNone ∨ (assocFind g.vertexname2id "t").isNone then
    (Except.error ⟨"graph must have a source named \"s\" and a sink named \"t\""⟩, g)
  else
    let r := core g.edges g.nextvertexid
    (Except.ok r.1, { g with edges := r.2 })

/-- `FlowGraph.getflow`: raises `GraphError` for an unknown tail or head
name, returns the stored flow for an existing edge, `0.0` otherwise. -/
def getflow (g : FlowGraph) (tail head : String) : Except GraphError ℚ :=
  if (assocFind g.vertexname2id tail).isNone then
    Except.error ⟨s!"unknown vertex \"{tail}\""⟩
  else if (assocFind g.vertexname2id head).isNone then
    Except.error ⟨s!"unknown vertex \"{head}\""⟩
  else
    match assocFind g.edgesbyname (tail, head) with
    | some i => Except.ok (arenaGet g.edges i).flow
    | none => Except.ok 0

/-- `FlowGraph.getcapacity`: raises `GraphError` for an unknown tail or head
name, returns the stored capacity for an existing edge, `0.0` otherwise. -/
def getcapacity (g : FlowGraph) (tail head : String) : Except GraphError ℚ :=
  if (assocFind g.vertexname2id tail).isNone then
    Except.error ⟨s!"unknown vertex \"{tail}\""⟩
  else if (assocFind g.vertexname2id head).isNone then
    Except.error ⟨s!"unknown vertex \"{head}\""⟩
  else
    match assocFind g.edgesbyname (tail, head) with
    | some i => Except.ok (arenaGet g.edges i).capacity
    | none => Except.ok 0

/-- `FlowGraph.getverticesfrom`: the successors list, `[]` on a missing key. -/
def getverticesfrom (g : FlowGraph) (tail : String) : List String :=
  match assocFind g.v2vertices tail with
  | some l => l
  | none => []

/-- `FlowGraph.getverticesto`: the predecessors list, `[]` on a missing key. -/
def getverticesto (g : FlowGraph) (head : String) : List String :=
  match assocFind g.vertices2v head with
  | some l => l
  | none => []

/-- A state-mutating call of the public interface (the two mutators that
are fully implemented in the repository sources). -/
inductive Op : Type
  | add (tail head : String) (cap : ℚ) (increaseifexists : Bool)
  | alter (tail head : String) (flow : ℚ) (additive : Bool)
deriving DecidableEq, Repr

/-- Whether an operation is an `addedge` call. -/
def Op.isAdd : Op → Bool
  | .add _ _ _ _ => true
  | .alter _ _ _ _ => false

/-- Apply one call to a state.  An `alterflow` that raises leaves the state
unchanged (the Python exception propagates before any mutation). -/
def applyOp (g : FlowGraph) : Op → FlowGraph
  | .add tail head cap inc => addedge g tail head cap inc
  | .alter tail head fl additive =>
    match alterflow g tail head fl additive with
    | .ok g' => g'
    | .error _ => g

/-- The state reached from a fresh `FlowGraph()` by a sequence of calls. -/
def run (ops : List Op) : FlowGraph := ops.foldl applyOp emptyGraph

section AssocLemmas

variable {K V : Type} [DecidableEq K] {m : List (K × V)} {k k' : K} {v : V}

theorem assocFind_some_mem {w : V} (h : assocFind m k = some w) : (k, w) ∈ m := by
  induction m with
  | nil => simp [assocFind] at h
  | cons p rest ih =>
    by_cases hk : p.1 = k
    · rw [show p = (p.1, p.2) from rfl] at h ⊢
      simp [assocFind, hk] at h
      simp [hk, h]
    · rw [show p = (p.1, p.2) from rfl] at h
      simp [assocFind, hk] at h
      exact List.mem_cons_of_mem _ (ih h)

theorem assocFind_eq_none_iff : assocFind m k = none ↔ k ∉ m.map Prod.fst := by
  induction m with
  | nil => simp [assocFind]
  | cons p rest ih =>
    by_cases hk : p.1 = k
    · simp [assocFind, hk]
    · simp [assocFind, hk, ih, Ne.symm hk]

theorem assocFind_isSome_iff : (assocFind m k).isSome = true ↔ k ∈ m.map Prod.fst := by
  constructor
  · intro h
    rcases hf : assocFind m k with _ | w
    · rw [hf] at h
      simp at h
    · exact List.mem_map_of_mem Prod.fst (assocFind_some_mem hf)
  · intro h
    rcases hf : assocFind m k with _ | w
    · rw [assocFind_eq_none_iff] at hf
      exact absurd h hf
    · simp

theorem assocSet_eq_append (h : assocFind m k = none) : assocSet m k v = m ++ [(k, v)] := by
  induction m with
  | nil => simp [assocSet]
  | cons p rest ih =>
    by_cases hk : p.1 = k
    · rw [show p = (p.1, p.2) from rfl] at h
      simp [assocFind, hk] at h
    · rw [show p = (p.1, p.2) from rfl] at h ⊢
      simp [assocFind, hk] at h
      simp [assocSet, hk, ih h]

theorem mem_assocSet {p : K × V} (h : p ∈ assocSet m k v) : p = (k, v) ∨ p ∈ m := by
  induction m with
  | nil => simp [assocSet] at h; simp [h]
  | cons q rest ih =>
    rw [show q = (q.1, q.2) from rfl] at h
    by_cases hk : q.1 = k
    · simp [assocSet, hk] at h
      rcases h with h | h
      · left; simp [h]
      · right; exact List.mem_cons_of_mem _ h
    · simp [assocSet, hk] at h
      rcases h with h | h
      · right; simp [h]
      · rcases ih h with h' | h'
        · left; exact h'
        · right; exact List.mem_cons_of_mem _ h'

theorem keys_assocSet_of_mem (h : k ∈ m.map Prod.fst) :
    (assocSet m k v).map Prod.fst = m.map Prod.fst := by
  induction m with
  | nil => simp at h
  | cons q rest ih =>
    by_cases hk : q.1 = k
    · simp [assocSet, hk]
    · rw [List.map_cons] at h
      rcases List.mem_cons.mp h with h' | h'
      · exact absurd h'.symm hk
      · simp [assocSet, hk, ih h']

theorem keys_assocSet_sub {a : K} (h : a ∈ (assocSet m k v).map Prod.fst) :
    a = k ∨ a ∈ m.map Prod.fst := by
  rcases List.mem_map.mp h with ⟨p, hp, ha⟩
  rcases mem_assocSet hp with h' | h'
  · left
    rw [h'] at ha
    exact ha.symm
  · right
    exact ha ▸ List.mem_map_of_mem Prod.fst h'

theorem nodup_keys_assocSet (h : (m.map Prod.fst).Nodup) :
    ((assocSet m k v).map Prod.fst).Nodup := by
  induction m with
  | nil => simp [assocSet]
  | cons q rest ih =>
    rw [List.map_cons, List.nodup_cons] at h
    by_cases hk : q.1 = k
    · rw [show assocSet (q :: rest) k v = (k, v) :: rest by simp [assocSet, hk]]
      rw [List.map_cons, List.nodup_cons]
      exact ⟨hk ▸ h.1, h.2⟩
    · rw [show assocSet (q :: rest) k v = q :: assocSet rest k v by simp [assocSet, hk]]
      rw [List.map_cons, List.nodup_cons]
      refine ⟨fun hmem => ?_, ih h.2⟩
      rcases keys_assocSet_sub hmem with h' | h'
      · exact hk h'
      · exact h.1 h'

theorem assocFind_assocSet_self : assocFind (assocSet m k v) k = some v := by
  induction m with
  | nil => simp [assocSet, assocFind]
  | cons q rest ih =>
    by_cases hk : q.1 = k
    · simp [assocSet, hk, assocFind]
    · simp [assocSet, hk, assocFind, ih]

theorem assocFind_assocSet_ne (h : k ≠ k') :
    assocFind (assocSet m k v) k' = assocFind m k' := by
  induction m with
  | nil => simp [assocSet, assocFind, h]
  | cons q rest ih =>
    by_cases hk : q.1 = k
    · simp [assocSet, hk, assocFind, h]
    · simp [assocSet, hk, assocFind, ih]

theorem filter_assocSet_of_false {P : K × V → Bool} (h : ∀ w, P (k, w) = false) :
    (assocSet m k v).filter P = m.filter P := by
  induction m with
  | nil => simp [assocSet, h v]
  | cons q rest ih =>
    by_cases hk : q.1 = k
    · have hq : P q = false := by
        have hw := h q.2
        rw [← hk] at hw
        exact hw
      rw [show assocSet (q :: rest) k v = (k, v) :: rest by simp [assocSet, hk]]
      rw [List.filter_cons, List.filter_cons]
      simp [h v, hq]
    · rw [show assocSet (q :: rest) k v = q :: assocSet rest k v by simp [assocSet, hk]]
      rw [List.filter_cons, List.filter_cons, ih]

end AssocLemmas

section ArenaLemmas

variable {α : Type} {l : List α} {i : Nat} {f : α → α}

theorem modifyIdx_length : (modifyIdx l i f).length = l.length := by
  induction l generalizing i with
  | nil => simp [modifyIdx]
  | cons a rest ih =>
    cases i with
    | zero => simp [modifyIdx]
    | succ j => simp [modifyIdx, ih]

theorem mem_modifyIdx {p : α} (h : p ∈ modifyIdx l i f) : p ∈ l ∨ ∃ q ∈ l, p = f q := by
  induction l generalizing i with
  | nil => simp [modifyIdx] at h
  | cons a rest ih =>
    cases i with
    | zero =>
      simp [modifyIdx] at h
      rcases h with h | h
      · right; exact ⟨a, List.mem_cons_self a rest, h⟩
      · left; exact List.mem_cons_of_mem _ h
    | succ j =>
      simp [modifyIdx] at h
      rcases h with h | h
      · left; simp [h]
      · rcases ih h with h' | ⟨q, hq, hpq⟩
        · left; exact List.mem_cons_of_mem _ h'
        · right; exact ⟨q, List.mem_cons_of_mem _ hq, hpq⟩

theorem arenaGet_modifyIdx_self {es : List Edge} {g : Edge → Edge} (h : i < es.length) :
    arenaGet (modifyIdx es i g) i = g (arenaGet es i) := by
  induction es generalizing i with
  | nil => simp at h
  | cons a rest ih =>
    cases i with
    | zero => simp [modifyIdx, arenaGet]
    | succ j =>
      simp at h
      simp only [modifyIdx, arenaGet, List.getD_cons_succ]
      exact ih h

theorem arenaGet_append_length {es : List Edge} {e : Edge} :
    arenaGet (es ++ [e]) es.length = e := by
  induction es with
  | nil => simp [arenaGet]
  | cons a rest ih =>
    simp only [List.cons_append, List.length_cons, arenaGet, List.getD_cons_succ]
    exact ih

theorem arenaGet_mem {es : List Edge} (h : i < es.length) : arenaGet es i ∈ es := by
  induction es generalizing i with
  | nil => simp at h
  | cons a rest ih =>
    cases i with
    | zero => simp [arenaGet]
    | succ j =>
      simp at h
      simp only [arenaGet, List.getD_cons_succ]
      exact List.mem_cons_of_mem _ (ih h)

end ArenaLemmas

/-- A vertex-map entry whose name is neither `"s"` nor `"t"`. -/
def nonST (p : String × Nat) : Bool := !(p.1 == "s") && !(p.1 == "t")

/-- Invariant of the name-to-id map maintained by `_getvertexid`:
`"s"` and `"t"` can only be bound to 0 and 1, keys are unique,
and the other names are bound, in insertion (= first-seen) order,
exactly to the consecutive ids `2, 3, …, nextvertexid - 1`. -/
structure NameInv (g : FlowGraph) : Prop where
  s_val : ∀ p ∈ g.vertexname2id, p.1 = "s" → p.2 = 0
  t_val : ∀ p ∈ g.vertexname2id, p.1 = "t" → p.2 = 1
  keys_nodup : (g.vertexname2id.map Prod.fst).Nodup
  dense : (g.vertexname2id.filter nonST).map Prod.snd =
    List.range' 2 (g.nextvertexid - 2)
  two_le : 2 ≤ g.nextvertexid

theorem getvertexid_s (g : FlowGraph) :
    _getvertexid g "s" = (0, { g with vertexname2id := assocSet g.vertexname2id "s" 0 }) := by
  simp [_getvertexid]

theorem getvertexid_t (g : FlowGraph) :
    _getvertexid g "t" = (1, { g with vertexname2id := assocSet g.vertexname2id "t" 1 }) := by
  simp [_getvertexid]

theorem getvertexid_known (g : FlowGraph) {v : String} {id : Nat}
    (hvs : v ≠ "s") (hvt : v ≠ "t") (h : assocFind g.vertexname2id v = some id) :
    _getvertexid g v = (id, g) := by
  simp [_getvertexid, hvs, hvt, h]

theorem getvertexid_new (g : FlowGraph) {v : String}
    (hvs : v ≠ "s") (hvt : v ≠ "t") (h : assocFind g.vertexname2id v = none) :
    _getvertexid g v = (g.nextvertexid,
      { g with nextvertexid := g.nextvertexid + 1,
               vertexname2id := assocSet g.vertexname2id v g.nextvertexid }) := by
  simp [_getvertexid, hvs, hvt, h]

theorem getvertexid_fields (g : FlowGraph) (v : String) :
    (_getvertexid g v).2.edges = g.edges ∧
    (_getvertexid g v).2.edgesbyid = g.edgesbyid ∧
    (_getvertexid g v).2.edgesbyname = g.edgesbyname ∧
    (_getvertexid g v).2.v2vertices = g.v2vertices ∧
    (_getvertexid g v).2.vertices2v = g.vertices2v ∧
    g.nextvertexid ≤ (_getvertexid g v).2.nextvertexid := by
  by_cases hvs : v = "s"
  · subst hvs
    rw [getvertexid_s]
    simp
  · by_cases hvt : v = "t"
    · subst hvt
      rw [getvertexid_t]
      simp
    · rcases h : assocFind g.vertexname2id v with _ | id
      · rw [getvertexid_new g hvs hvt h]
        simp [Nat.le_succ]
      · rw [getvertexid_known g hvs hvt h]
        simp

theorem getvertexid_find_self (g : FlowGraph) (v : String) :
    assocFind ((_getvertexid g v).2).vertexname2id v = some (_getvertexid g v).1 := by
  by_cases hvs : v = "s"
  · subst hvs
    rw [getvertexid_s]
    exact assocFind_assocSet_self
  · by_cases hvt : v = "t"
    · subst hvt
      rw [getvertexid_t]
      exact assocFind_assocSet_self
    · rcases h : assocFind g.vertexname2id v with _ | id
      · rw [getvertexid_new g hvs hvt h]
        exact assocFind_assocSet_self
      · rw [getvertexid_known g hvs hvt h]
        exact h

theorem getvertexid_mono (g : FlowGraph) (v : String) (hInv : NameInv g)
    {n : String} {i : Nat} (h : assocFind g.vertexname2id n = some i) :
    assocFind ((_getvertexid g v).2).vertexname2id n = some i := by
  by_cases hvs : v = "s"
  · subst hvs
    rw [getvertexid_s]
    by_cases hns : n = "s"
    · have h0 : i = 0 := hInv.s_val _ (assocFind_some_mem h) hns
      subst hns h0
      exact assocFind_assocSet_self
    · show assocFind (assocSet g.vertexname2id "s" 0) n = some i
      rw [assocFind_assocSet_ne (Ne.symm hns)]
      exact h
  · by_cases hvt : v = "t"
    · subst hvt
      rw [getvertexid_t]
      by_cases hnt : n = "t"
      · have h1 : i = 1 := hInv.t_val _ (assocFind_some_mem h) hnt
        subst hnt h1
        exact assocFind_assocSet_self
      · show assocFind (assocSet g.vertexname2id "t" 1) n = some i
        rw [assocFind_assocSet_ne (Ne.symm hnt)]
        exact h
    · rcases hf : assocFind g.vertexname2id v with _ | id
      · by_cases hnv : n = v
        · subst hnv
          rw [h] at hf
          exact absurd hf (by simp)
        · rw [getvertexid_new g hvs hvt hf]
          show assocFind (assocSet g.vertexname2id v g.nextvertexid) n = some i
          rw [assocFind_assocSet_ne (Ne.symm hnv)]
          exact h
      · rw [getvertexid_known g hvs hvt hf]
        exact h

theorem getvertexid_nameInv (g : FlowGraph) (v : String) (hInv : NameInv g) :
    NameInv (_getvertexid g v).2 := by
  by_cases hvs : v = "s"
  · subst hvs
    rw [getvertexid_s]
    refine ⟨?_, ?_, ?_, ?_, hInv.two_le⟩
    · intro p hp _
      rcases mem_assocSet hp with h | h
      · simp [h]
      · exact hInv.s_val p h (by assumption)
    · intro p hp hpt
      rcases mem_assocSet hp with h | h
      · rw [h] at hpt
        exact absurd hpt (by simp)
      · exact hInv.t_val p h hpt
    · exact nodup_keys_assocSet hInv.keys_nodup
    · show ((assocSet g.vertexname2id "s" 0).filter nonST).map Prod.snd = _
      rw [filter_assocSet_of_false (fun w => by simp [nonST])]
      exact hInv.dense
  · by_cases hvt : v = "t"
    · subst hvt
      rw [getvertexid_t]
      refine ⟨?_, ?_, ?_, ?_, hInv.two_le⟩
      · intro p hp hps
        rcases mem_assocSet hp with h | h
        · rw [h] at hps
          exact absurd hps (by simp)
        · exact hInv.s_val p h hps
      · intro p hp _
        rcases mem_assocSet hp with h | h
        · simp [h]
        · exact hInv.t_val p h (by assumption)
      · exact nodup_keys_assocSet hInv.keys_nodup
      · show ((assocSet g.vertexname2id "t" 1).filter nonST).map Prod.snd = _
        rw [filter_assocSet_of_false (fun w => by simp [nonST])]
        exact hInv.dense
    · rcases hf : assocFind g.vertexname2id v with _ | id
      · rw [getvertexid_new g hvs hvt hf]
        have happ : assocSet g.vertexname2id v g.nextvertexid =
            g.vertexname2id ++ [(v, g.nextvertexid)] := assocSet_eq_append hf
        have hvnotin : v ∉ g.vertexname2id.map Prod.fst :=
          assocFind_eq_none_iff.mp hf
        refine ⟨?_, ?_, ?_, ?_, ?_⟩
        · dsimp only
          rw [happ]
          intro p hp hps
          rcases List.mem_append.mp hp with h | h
          · exact hInv.s_val p h hps
          · simp at h
            rw [h] at hps
            exact absurd hps hvs
        · dsimp only
          rw [happ]
          intro p hp hpt
          rcases List.mem_append.mp hp with h | h
          · exact hInv.t_val p h hpt
          · simp at h
            rw [h] at hpt
            exact absurd hpt hvt
        · dsimp only
          rw [happ, List.map_append, List.nodup_append]
          refine ⟨hInv.keys_nodup, List.nodup_singleton v, ?_⟩
          intro a ha hb
          simp at hb
          rw [hb] at ha
          exact hvnotin ha
        · dsimp only
          rw [happ, List.filter_append, List.map_append]
          have hvtrue : nonST (v, g.nextvertexid) = true := by
            simp [nonST, hvs, hvt]
          simp only [List.filter_cons, hvtrue, List.filter_nil, List.map_cons,
            List.map_nil]
          rw [hInv.dense]
          have h23 : 2 ≤ g.nextvertexid := hInv.two_le
          have h2 : g.nextvertexid + 1 - 2 = (g.nextvertexid - 2) + 1 := by
            omega
          rw [h2, List.range'_concat]
          have h3 : 2 + 1 * (g.nextvertexid - 2) = g.nextvertexid := by
            omega
          rw [h3]
          simp
        · exact Nat.le_succ_of_le hInv.two_le
      · rw [getvertexid_known g hvs hvt hf]
        exact hInv

/-- Full state invariant maintained by the mutators of the public
interface: the name map is well-formed (`NameInv`), arena indices stored in
`edgesbyname` are in range, there is at most one edge entry per ordered
name pair, every edge's endpoint names are registered, and the adjacency
dicts only record endpoints of existing edges (with non-empty lists). -/
structure Inv (g : FlowGraph) : Prop where
  name_inv : NameInv g
  idx_lt : ∀ p ∈ g.edgesbyname, p.2 < g.edges.length
  edge_keys_nodup : (g.edgesbyname.map Prod.fst).Nodup
  names_known : ∀ p ∈ g.edgesbyname,
    (assocFind g.vertexname2id p.1.1).isSome = true ∧
    (assocFind g.vertexname2id p.1.2).isSome = true
  out_edges : ∀ p ∈ g.v2vertices, p.2 ≠ [] ∧
    ∀ b ∈ p.2, (p.1, b) ∈ g.edgesbyname.map Prod.fst
  in_edges : ∀ p ∈ g.vertices2v, p.2 ≠ [] ∧
    ∀ a ∈ p.2, (a, p.1) ∈ g.edgesbyname.map Prod.fst

theorem inv_empty : Inv emptyGraph := by
  refine ⟨⟨?_, ?_, ?_, ?_, ?_⟩, ?_, ?_, ?_, ?_, ?_⟩ <;> simp [emptyGraph]

theorem addedge_existing (g : FlowGraph) {tail head : String} {i : Nat} (cap : ℚ)
    (inc : Bool) (hf : assocFind g.edgesbyname (tail, head) = some i) :
    addedge g tail head cap inc =
      { g with edges := modifyIdx g.edges i (fun e =>
          if inc then { e with capacity := e.capacity + cap }
          else { e with capacity := cap }) } := by
  cases inc <;> simp [addedge, hf]

theorem alterflow_some (g : FlowGraph) {tail head : String} {i : Nat} (fl : ℚ)
    (additive : Bool) (hf : assocFind g.edgesbyname (tail, head) = some i) :
    alterflow g tail head fl additive =
      Except.ok { g with edges := modifyIdx g.edges i (fun e =>
          if additive then { e with flow := e.flow + fl }
          else { e with flow := fl }) } := by
  cases additive <;> simp [alterflow, hf]

theorem alterflow_none (g : FlowGraph) {tail head : String} (fl : ℚ) (additive : Bool)
    (hf : assocFind g.edgesbyname (tail, head) = none) :
    alterflow g tail head fl additive =
      Except.error ⟨s!"there is no edge from {tail} to {head}"⟩ := by
  simp [alterflow, hf]

theorem addedge_inv (g : FlowGraph) (tail head : String) (cap : ℚ) (inc : Bool)
    (hInv : Inv g) : Inv (addedge g tail head cap inc) := by
  rcases hf : assocFind g.edgesbyname (tail, head) with _ | i
  · rcases he1 : _getvertexid g tail with ⟨tailid, g1⟩
    rcases he2 : _getvertexid g1 head with ⟨headid, g2⟩
    have hfields1 := getvertexid_fields g tail
    rw [he1] at hfields1
    have hn1 : NameInv g1 := by
      have := getvertexid_nameInv g tail hInv.name_inv
      rwa [he1] at this
    have hfields2 := getvertexid_fields g1 head
    rw [he2] at hfields2
    have hn2 : NameInv g2 := by
      have := getvertexid_nameInv g1 head hn1
      rwa [he2] at this
    have hfind_tail1 : assocFind g1.vertexname2id tail = some tailid := by
      have := getvertexid_find_self g tail
      rwa [he1] at this
    have hfind_tail : assocFind g2.vertexname2id tail = some tailid := by
      have := getvertexid_mono g1 head hn1 hfind_tail1
      rwa [he2] at this
    have hfind_head : assocFind g2.vertexname2id head = some headid := by
      have := getvertexid_find_self g1 head
      rwa [he2] at this
    have hmono : ∀ n j, assocFind g.vertexname2id n = some j →
        assocFind g2.vertexname2id n = some j := by
      intro n j hj
      have h1 := getvertexid_mono g tail hInv.name_inv hj
      rw [he1] at h1
      have h2 := getvertexid_mono g1 head hn1 h1
      rwa [he2] at h2
    have hbn : g2.edgesbyname = g.edgesbyname := by
      rw [hfields2.2.2.1, hfields1.2.2.1]
    have hes : g2.edges = g.edges := by
      rw [hfields2.1, hfields1.1]
    have hv2 : g2.v2vertices = g.v2vertices := by
      rw [hfields2.2.2.2.1, hfields1.2.2.2.1]
    have h2v : g2.vertices2v = g.vertices2v := by
      rw [hfields2.2.2.2.2.1, hfields1.2.2.2.2.1]
    have hfnotin : (tail, head) ∉ g.edgesbyname.map Prod.fst :=
      assocFind_eq_none_iff.mp hf
    have happ : assocSet g2.edgesbyname (tail, head) g2.edges.length =
        g.edgesbyname ++ [((tail, head), g.edges.length)] := by
      rw [hbn, hes] at *
      exact assocSet_eq_append hf
    simp only [addedge, hf]
    rw [he1]
    dsimp only
    rw [he2]
    dsimp only
    refine ⟨?_, ?_, ?_, ?_, ?_, ?_⟩
    · exact ⟨hn2.s_val, hn2.t_val, hn2.keys_nodup, hn2.dense, hn2.two_le⟩
    · dsimp only
      rw [happ, hes]
      intro p hp
      rw [List.length_append]
      rcases List.mem_append.mp hp with h | h
      · have := hInv.idx_lt p h
        omega
      · simp at h
        rw [h]
        simp
    · dsimp only
      rw [happ, List.map_append, List.nodup_append]
      refine ⟨hInv.edge_keys_nodup, by simp, ?_⟩
      intro a ha hb
      simp at hb
      rw [hb] at ha
      exact hfnotin ha
    · dsimp only
      rw [happ]
      intro p hp
      rcases List.mem_append.mp hp with h | h
      · have hk := hInv.names_known p h
        constructor
        · rcases Option.isSome_iff_exists.mp hk.1 with ⟨j, hj⟩
          rw [hmono p.1.1 j hj]
          simp
        · rcases Option.isSome_iff_exists.mp hk.2 with ⟨j, hj⟩
          rw [hmono p.1.2 j hj]
          simp
      · simp at h
        rw [h]
        exact ⟨by rw [show ((tail, head), g.edges.length).1.1 = tail from rfl,
            hfind_tail]; simp,
          by rw [show ((tail, head), g.edges.length).1.2 = head from rfl,
            hfind_head]; simp⟩
    · dsimp only
      rw [hv2, happ]
      intro p hp
      rcases hfv : assocFind g.v2vertices tail with _ | l
      · rw [hfv] at hp
        rcases mem_assocSet hp with h | h
        · rw [h]
          refine ⟨by simp, ?_⟩
          intro b hb
          simp at hb
          rw [hb, List.map_append]
          simp
        · have hold := hInv.out_edges p h
          refine ⟨hold.1, ?_⟩
          intro b hb
          rw [List.map_append]
          exact List.mem_append_left _ (hold.2 b hb)
      · rw [hfv] at hp
        rcases mem_assocSet hp with h | h
        · rw [h]
          refine ⟨by simp, ?_⟩
          intro b hb
          rw [List.map_append]
          rcases List.mem_append.mp hb with h' | h'
          · have hold := hInv.out_edges (tail, l) (assocFind_some_mem hfv)
            exact List.mem_append_left _ (hold.2 b h')
          · simp at h'
            rw [h']
            simp
        · have hold := hInv.out_edges p h
          refine ⟨hold.1, ?_⟩
          intro b hb
          rw [List.map_append]
          exact List.mem_append_left _ (hold.2 b hb)
    · dsimp only
      rw [h2v, happ]
      intro p hp
      rcases hfv : assocFind g.vertices2v head with _ | l
      · rw [hfv] at hp
        rcases mem_assocSet hp with h | h
        · rw [h]
          refine ⟨by simp, ?_⟩
          intro a ha
          simp at ha
          rw [ha, List.map_append]
          simp
        · have hold := hInv.in_edges p h
          refine ⟨hold.1, ?_⟩
          intro a ha
          rw [List.map_append]
          exact List.mem_append_left _ (hold.2 a ha)
      · rw [hfv] at hp
        rcases mem_assocSet hp with h | h
        · rw [h]
          refine ⟨by simp, ?_⟩
          intro a ha
          rw [List.map_append]
          rcases List.mem_append.mp ha with h' | h'
          · have hold := hInv.in_edges (head, l) (assocFind_some_mem hfv)
            exact List.mem_append_left _ (hold.2 a h')
          · simp at h'
            rw [h']
            simp
        · have hold := hInv.in_edges p h
          refine ⟨hold.1, ?_⟩
          intro a ha
          rw [List.map_append]
          exact List.mem_append_left _ (hold.2 a ha)
  · rw [addedge_existing g cap inc hf]
    refine ⟨?_, ?_, hInv.edge_keys_nodup, hInv.names_known, hInv.out_edges,
      hInv.in_edges⟩
    · exact ⟨hInv.name_inv.s_val, hInv.name_inv.t_val, hInv.name_inv.keys_nodup,
        hInv.name_inv.dense, hInv.name_inv.two_le⟩
    · intro p hp
      dsimp only
      rw [modifyIdx_length]
      exact hInv.idx_lt p hp

theorem alterflow_inv (g : FlowGraph) (tail head : String) (fl : ℚ) (additive : Bool)
    {g' : FlowGraph} (h : alterflow g tail head fl additive = Except.ok g')
    (hInv : Inv g) : Inv g' := by
  rcases hf : assocFind g.edgesbyname (tail, head) with _ | i
  · rw [alterflow_none g fl additive hf] at h
    exact absurd h (by simp)
  · rw [alterflow_some g fl additive hf] at h
    have hg' := (Except.ok.inj h).symm
    rw [hg']
    refine ⟨?_, ?_, hInv.edge_keys_nodup, hInv.names_known, hInv.out_edges,
      hInv.in_edges⟩
    · exact ⟨hInv.name_inv.s_val, hInv.name_inv.t_val, hInv.name_inv.keys_nodup,
        hInv.name_inv.dense, hInv.name_inv.two_le⟩
    · intro p hp
      dsimp only
      rw [modifyIdx_length]
      exact hInv.idx_lt p hp

theorem applyOp_inv (g : FlowGraph) (op : Op) (hInv : Inv g) : Inv (applyOp g op) := by
  cases op with
  | add tail head cap inc => exact addedge_inv g tail head cap inc hInv
  | alter tail head fl additive =>
    rcases h : alterflow g tail head fl additive with e | g'
    · simp [applyOp, h]
      exact hInv
    · simp [applyOp, h]
      exact alterflow_inv g tail head fl additive h hInv

theorem foldl_inv (ops : List Op) (g : FlowGraph) (hInv : Inv g) :
    Inv (ops.foldl applyOp g) := by
  induction ops generalizing g with
  | nil => exact hInv
  | cons op rest ih => exact ih (applyOp g op) (applyOp_inv g op hInv)

theorem run_inv (ops : List Op) : Inv (run ops) := foldl_inv ops emptyGraph inv_empty

/-- All arena edge records have zero flow. -/
def FlowsZero (g : FlowGraph) : Prop := ∀ e ∈ g.edges, e.flow = 0

theorem addedge_flowsZero (g : FlowGraph) (tail head : String) (cap : ℚ) (inc : Bool)
    (h : FlowsZero g) : FlowsZero (addedge g tail head cap inc) := by
  rcases hf : assocFind g.edgesbyname (tail, head) with _ | i
  · rcases he1 : _getvertexid g tail with ⟨tailid, g1⟩
    rcases he2 : _getvertexid g1 head with ⟨headid, g2⟩
    have hes : g2.edges = g.edges := by
      have h1 := getvertexid_fields g tail
      rw [he1] at h1
      have h2 := getvertexid_fields g1 head
      rw [he2] at h2
      rw [h2.1, h1.1]
    simp only [addedge, hf]
    rw [he1]
    dsimp only
    rw [he2]
    dsimp only
    intro e he
    rw [hes] at he
    rcases List.mem_append.mp he with h' | h'
    · exact h e h'
    · simp at h'
      rw [h']
  · rw [addedge_existing g cap inc hf]
    intro e he
    dsimp only at he
    rcases mem_modifyIdx he with h' | ⟨q, hq, hpq⟩
    · exact h e h'
    · rw [hpq]
      cases inc <;> simp [h q hq]

theorem applyOp_find_mono (g : FlowGraph) (op : Op) (hInv : Inv g)
    {n : String} {i : Nat} (h : assocFind g.vertexname2id n = some i) :
    assocFind (applyOp g op).vertexname2id n = some i := by
  cases op with
  | add tail head cap inc =>
    rcases hf : assocFind g.edgesbyname (tail, head) with _ | j
    · rcases he1 : _getvertexid g tail with ⟨tailid, g1⟩
      rcases he2 : _getvertexid g1 head with ⟨headid, g2⟩
      have h1 := getvertexid_mono g tail hInv.name_inv h
      rw [he1] at h1
      have hn1 : NameInv g1 := by
        have := getvertexid_nameInv g tail hInv.name_inv
        rwa [he1] at this
      have h2 := getvertexid_mono g1 head hn1 h1
      rw [he2] at h2
      show assocFind (addedge g tail head cap inc).vertexname2id n = some i
      simp only [addedge, hf]
      rw [he1]
      dsimp only
      rw [he2]
      dsimp only
      exact h2
    · show assocFind (addedge g tail head cap inc).vertexname2id n = some i
      rw [addedge_existing g cap inc hf]
      exact h
  | alter tail head fl additive =>
    show assocFind (applyOp g (Op.alter tail head fl additive)).vertexname2id n = some i
    rcases hf : assocFind g.edgesbyname (tail, head) with _ | j
    · simp only [applyOp]
      rw [alterflow_none g fl additive hf]
      exact h
    · simp only [applyOp]
      rw [alterflow_some g fl additive hf]
      exact h

theorem foldl_find_mono (ops : List Op) (g : FlowGraph) (hInv : Inv g)
    {n : String} {i : Nat} (h : assocFind g.vertexname2id n = some i) :
    assocFind (ops.foldl applyOp g).vertexname2id n = some i := by
  induction ops generalizing g with
  | nil => exact h
  | cons op rest ih =>
    exact ih (applyOp g op) (applyOp_inv g op hInv) (applyOp_find_mono g op hInv h)

theorem run_flowsZero (ops : List Op) (hAdd : ∀ op ∈ ops, op.isAdd = true) :
    FlowsZero (run ops) := by
  have main : ∀ (l : List Op) (g : FlowGraph), (∀ op ∈ l, op.isAdd = true) →
      FlowsZero g → FlowsZero (l.foldl applyOp g) := by
    intro l
    induction l with
    | nil =>
      intro g _ hg
      exact hg
    | cons op rest ih =>
      intro g hl hg
      cases op with
      | add tail head cap inc =>
        exact ih (applyOp g (Op.add tail head cap inc))
          (fun o ho => hl o (List.mem_cons_of_mem _ ho))
          (addedge_flowsZero g tail head cap inc hg)
      | alter tail head fl additive =>
        have hno := hl _ (List.mem_cons_self _ _)
        simp [Op.isAdd] at hno
  exact main ops emptyGraph hAdd (by intro e he; simp [emptyGraph] at he)

theorem isNone_eq_false {α : Type} {o : Option α} (h : o.isSome = true) :
    o.isNone = false := by
  rcases o with _ | a
  · simp at h
  · rfl

theorem getflow_some (g : FlowGraph) {tail head : String} {i : Nat}
    (ht : (assocFind g.vertexname2id tail).isSome = true)
    (hh : (assocFind g.vertexname2id head).isSome = true)
    (hf : assocFind g.edgesbyname (tail, head) = some i) :
    getflow g tail head = Except.ok (arenaGet g.edges i).flow := by
  simp [getflow, isNone_eq_false ht, isNone_eq_false hh, hf]

theorem getflow_noedge (g : FlowGraph) {tail head : String}
    (ht : (assocFind g.vertexname2id tail).isSome = true)
    (hh : (assocFind g.vertexname2id head).isSome = true)
    (hf : assocFind g.edgesbyname (tail, head) = none) :
    getflow g tail head = Except.ok 0 := by
  simp [getflow, isNone_eq_false ht, isNone_eq_false hh, hf]

theorem getflow_unknown (g : FlowGraph) {tail head : String}
    (h : (assocFind g.vertexname2id tail).isSome = false ∨
      (assocFind g.vertexname2id head).isSome = false) :
    ∃ e, getflow g tail head = Except.error e := by
  rcases hft : assocFind g.vertexname2id tail with _ | j
  · exact ⟨⟨s!"unknown vertex \"{tail}\""⟩, by simp [getflow, hft]⟩
  · rcases hfh : assocFind g.vertexname2id head with _ | j'
    · exact ⟨⟨s!"unknown vertex \"{head}\""⟩, by simp [getflow, hft, hfh]⟩
    · rw [hft, hfh] at h
      simp at h

theorem getcapacity_some (g : FlowGraph) {tail head : String} {i : Nat}
    (ht : (assocFind g.vertexname2id tail).isSome = true)
    (hh : (assocFind g.vertexname2id head).isSome = true)
    (hf : assocFind g.edgesbyname (tail, head) = some i) :
    getcapacity g tail head = Except.ok (arenaGet g.edges i).capacity := by
  simp [getcapacity, isNone_eq_false ht, isNone_eq_false hh, hf]

theorem getcapacity_noedge (g : FlowGraph) {tail head : String}
    (ht : (assocFind g.vertexname2id tail).isSome = true)
    (hh : (assocFind g.vertexname2id head).isSome = true)
    (hf : assocFind g.edgesbyname (tail, head) = none) :
    getcapacity g tail head = Except.ok 0 := by
  simp [getcapacity, isNone_eq_false ht, isNone_eq_false hh, hf]

theorem getcapacity_unknown (g : FlowGraph) {tail head : String}
    (h : (assocFind g.vertexname2id tail).isSome = false ∨
      (assocFind g.vertexname2id head).isSome = false) :
    ∃ e, getcapacity g tail head = Except.error e := by
  rcases hft : assocFind g.vertexname2id tail with _ | j
  · exact ⟨⟨s!"unknown vertex \"{tail}\""⟩, by simp [getcapacity, hft]⟩
  · rcases hfh : assocFind g.vertexname2id head with _ | j'
    · exact ⟨⟨s!"unknown vertex \"{head}\""⟩, by simp [getcapacity, hft, hfh]⟩
    · rw [hft, hfh] at h
      simp at h

theorem addedge_new_spec (g : FlowGraph) (tail head : String) (cap : ℚ) (inc : Bool)
    (hInv : Inv g) (hf : assocFind g.edgesbyname (tail, head) = none) :
    (addedge g tail head cap inc).edges = g.edges ++
      [⟨(_getvertexid g tail).1, (_getvertexid (_getvertexid g tail).2 head).1, cap, 0⟩] ∧
    assocFind (addedge g tail head cap inc).edgesbyname (tail, head) =
      some g.edges.length ∧
    (assocFind (addedge g tail head cap inc).vertexname2id tail).isSome = true ∧
    (assocFind (addedge g tail head cap inc).vertexname2id head).isSome = true := by
  rcases he1 : _getvertexid g tail with ⟨tailid, g1⟩
  rcases he2 : _getvertexid g1 head with ⟨headid, g2⟩
  have hfields1 := getvertexid_fields g tail
  rw [he1] at hfields1
  have hn1 : NameInv g1 := by
    have := getvertexid_nameInv g tail hInv.name_inv
    rwa [he1] at this
  have hfields2 := getvertexid_fields g1 head
  rw [he2] at hfields2
  have hfind_tail1 : assocFind g1.vertexname2id tail = some tailid := by
    have := getvertexid_find_self g tail
    rwa [he1] at this
  have hfind_tail : assocFind g2.vertexname2id tail = some tailid := by
    have := getvertexid_mono g1 head hn1 hfind_tail1
    rwa [he2] at this
  have hfind_head : assocFind g2.vertexname2id head = some headid := by
    have := getvertexid_find_self g1 head
    rwa [he2] at this
  have hbn : g2.edgesbyname = g.edgesbyname := by
    rw [hfields2.2.2.1, hfields1.2.2.1]
  have hes : g2.edges = g.edges := by
    rw [hfields2.1, hfields1.1]
  simp only [addedge, hf]
  rw [he1]
  dsimp only
  rw [he2]
  dsimp only
  refine ⟨by rw [hes], ?_, ?_, ?_⟩
  · dsimp only
    rw [show (assocSet g2.edgesbyname (tail, head) g2.edges.length) =
        assocSet g2.edgesbyname (tail, head) g.edges.length by rw [hes]]
    rw [assocFind_assocSet_self]
  · dsimp only
    rw [hfind_tail]
    rfl
  · dsimp only
    rw [hfind_head]
    rfl

/-- Claim C2 (confirmed): for every graph, querying flow or capacity for a
pair of registered vertex names with no edge between them returns `0.0`
without failing, and querying with an unregistered tail or head name raises
`GraphError`. -/
theorem C2_lookup_semantics (g : FlowGraph) (tail head : String) :
    (((assocFind g.vertexname2id tail).isSome = true) →
     ((assocFind g.vertexname2id head).isSome = true) →
     assocFind g.edgesbyname (tail, head) = none →
     getflow g tail head = Except.ok 0 ∧ getcapacity g tail head = Except.ok 0) ∧
    ((assocFind g.vertexname2id tail).isSome = false ∨
      (assocFind g.vertexname2id head).isSome = false →
     (∃ e₁, getflow g tail head = Except.error e₁) ∧
     (∃ e₂, getcapacity g tail head = Except.error e₂)) := by
  constructor
  · intro ht hh hf
    exact ⟨getflow_noedge g ht hh hf, getcapacity_noedge g ht hh hf⟩
  · intro h
    exact ⟨getflow_unknown g h, getcapacity_unknown g h⟩

/-- Witness for C2 at a concrete graph with the single edge `a → b`:
the registered pair `(b, a)` with no edge yields `0.0` twice, and the
unregistered name `x` yields `GraphError` twice. -/
theorem C2_lookup_semantics_witness :
    (getflow (run [Op.add "a" "b" 1 false]) "b" "a" = Except.ok 0 ∧
     getcapacity (run [Op.add "a" "b" 1 false]) "b" "a" = Except.ok 0) ∧
    ((∃ e₁, getflow (run [Op.add "a" "b" 1 false]) "x" "b" = Except.error e₁) ∧
     (∃ e₂, getcapacity (run [Op.add "a" "b" 1 false]) "x" "b" = Except.error e₂)) :=
  ⟨(C2_lookup_semantics (run [Op.add "a" "b" 1 false]) "b" "a").1
      (by decide) (by decide) (by decide),
   (C2_lookup_semantics (run [Op.add "a" "b" 1 false]) "x" "b").2 (Or.inl (by decide))⟩

/-- Claim C3 (confirmed): when no vertex named `s` or no vertex named `t`
is registered, `calculatemaxflow` raises the descriptive `GraphError`
without invoking the core engine (the statement holds for every core
function) and leaves the graph state unchanged. -/
theorem C3_missing_endpoint (core : List Edge → Nat → ℚ × List Edge) (g : FlowGraph)
    (h : assocFind g.vertexname2id "s" = none ∨ assocFind g.vertexname2id "t" = none) :
    calculatemaxflow core g =
      (Except.error ⟨"graph must have a source named \"s\" and a sink named \"t\""⟩,
        g) := by
  rcases h with h | h <;> simp [calculatemaxflow, h]

/-- Witness for C3 at the empty graph with a concrete core function. -/
theorem C3_missing_endpoint_witness :
    calculatemaxflow (fun es _ => (0, es)) emptyGraph =
      (Except.error ⟨"graph must have a source named \"s\" and a sink named \"t\""⟩,
        emptyGraph) :=
  C3_missing_endpoint (fun es _ => (0, es)) emptyGraph (Or.inl rfl)

/-- Claim C5 counterexample: `addedge` with capacity `-1.0` completes
without any error (it is a total function that never raises) and admits an
edge whose stored capacity is the negative value `-1.0`. -/
theorem C5_counterexample :
    getcapacity (addedge emptyGraph "a" "b" (-1) false) "a" "b" = Except.ok (-1) ∧
    ((-1 : ℚ) < 0) := by
  constructor
  · simp [addedge, getcapacity, _getvertexid, assocFind, assocSet, arenaGet,
      emptyGraph]
  · norm_num

/-- Claim C5 (amended): `addedge` performs no capacity validation at all —
for any capacity value, including negative ones, the submission is accepted
and the value is stored verbatim; the negative-capacity rejection described
by the spec belongs to the core engine, which `addedge` does not invoke. -/
theorem C5_addedge_accepts_any_capacity (ops : List Op) (tail head : String) (cap : ℚ)
    (hf : assocFind (run ops).edgesbyname (tail, head) = none) :
    getcapacity (addedge (run ops) tail head cap false) tail head = Except.ok cap := by
  have hInv := run_inv ops
  obtain ⟨hedges, hfind, htail, hhead⟩ :=
    addedge_new_spec (run ops) tail head cap false hInv hf
  rw [getcapacity_some _ htail hhead hfind, hedges, arenaGet_append_length]

/-- Witness for the amended C5 at the empty graph with capacity `-1.0`. -/
theorem C5_addedge_accepts_any_capacity_witness :
    getcapacity (addedge (run []) "a" "b" (-1) false) "a" "b" = Except.ok (-1) :=
  C5_addedge_accepts_any_capacity [] "a" "b" (-1) (by decide)

/-- Claim C8 (confirmed): after any sequence of `addedge` calls (and no
flow update), every edge record has flow `0.0`, and `getflow` returns
`0.0` for every pair of registered names. -/
theorem C8_fresh_graph_flows_zero (ops : List Op) (hAdd : ∀ op ∈ ops, op.isAdd = true) :
    (∀ e ∈ (run ops).edges, e.flow = 0) ∧
    (∀ tail head, (assocFind (run ops).vertexname2id tail).isSome = true →
      (assocFind (run ops).vertexname2id head).isSome = true →
      getflow (run ops) tail head = Except.ok 0) := by
  have hz := run_flowsZero ops hAdd
  refine ⟨hz, ?_⟩
  intro tail head ht hh
  rcases hf : assocFind (run ops).edgesbyname (tail, head) with _ | i
  · exact getflow_noedge _ ht hh hf
  · rw [getflow_some _ ht hh hf]
    have hi : i < (run ops).edges.length :=
      (run_inv ops).idx_lt _ (assocFind_some_mem hf)
    rw [hz _ (arenaGet_mem hi)]

/-- Witness for C8 at a freshly built single-edge graph. -/
theorem C8_fresh_graph_flows_zero_witness :
    (∀ e ∈ (run [Op.add "a" "b" 1 false]).edges, e.flow = 0) ∧
    getflow (run [Op.add "a" "b" 1 false]) "a" "b" = Except.ok 0 :=
  ⟨(C8_fresh_graph_flows_zero [Op.add "a" "b" 1 false] (by decide)).1,
   (C8_fresh_graph_flows_zero [Op.add "a" "b" 1 false] (by decide)).2 "a" "b"
     (by decide) (by decide)⟩

/-- Claim C9 (confirmed): a fresh `FlowGraph` reports `numvertices() = 2`
before any name is registered, and in general `numvertices()` is `2` plus
the number of distinct registered names other than `s` and `t`. -/
theorem C9_numvertices_counts (ops : List Op) :
    numvertices emptyGraph = 2 ∧
    (((run ops).vertexname2id.filter nonST).map Prod.fst).Nodup ∧
    numvertices (run ops) =
      2 + (((run ops).vertexname2id.filter nonST).map Prod.fst).length := by
  refine ⟨rfl, ?_, ?_⟩
  · have hk := (run_inv ops).name_inv.keys_nodup
    have hs : (((run ops).vertexname2id.filter nonST).map Prod.fst).Sublist
        ((run ops).vertexname2id.map Prod.fst) :=
      ((run ops).vertexname2id.filter_sublist).map Prod.fst
    exact hk.sublist hs
  · have hd := (run_inv ops).name_inv.dense
    have h2 := (run_inv ops).name_inv.two_le
    have hlen : (((run ops).vertexname2id.filter nonST).map Prod.fst).length =
        (((run ops).vertexname2id.filter nonST).map Prod.snd).length := by
      simp
    rw [hlen, hd, List.length_range']
    show (run ops).nextvertexid = 2 + ((run ops).nextvertexid - 2)
    omega

/-- Claim C10 (confirmed): `getverticesfrom` (resp. `getverticesto`)
returns `[]` and never raises for any name without outgoing (resp.
incoming) edges, including names never registered in the graph. -/
theorem C10_adjacency_queries_total (ops : List Op) (name : String) :
    ((∀ b, (name, b) ∉ (run ops).edgesbyname.map Prod.fst) →
      getverticesfrom (run ops) name = []) ∧
    ((∀ a, (a, name) ∉ (run ops).edgesbyname.map Prod.fst) →
      getverticesto (run ops) name = []) ∧
    (assocFind (run ops).vertexname2id name = none →
      getverticesfrom (run ops) name = [] ∧ getverticesto (run ops) name = []) := by
  have hInv := run_inv ops
  have hfrom : (∀ b, (name, b) ∉ (run ops).edgesbyname.map Prod.fst) →
      getverticesfrom (run ops) name = [] := by
    intro h
    rcases hv : assocFind (run ops).v2vertices name with _ | l
    · simp [getverticesfrom, hv]
    · have ho := hInv.out_edges _ (assocFind_some_mem hv)
      rcases l with _ | ⟨b, l'⟩
      · exact absurd rfl ho.1
      · exact absurd (ho.2 b (List.mem_cons_self b l')) (h b)
  have hto : (∀ a, (a, name) ∉ (run ops).edgesbyname.map Prod.fst) →
      getverticesto (run ops) name = [] := by
    intro h
    rcases hv : assocFind (run ops).vertices2v name with _ | l
    · simp [getverticesto, hv]
    · have ho := hInv.in_edges _ (assocFind_some_mem hv)
      rcases l with _ | ⟨a, l'⟩
      · exact absurd rfl ho.1
      · exact absurd (ho.2 a (List.mem_cons_self a l')) (h a)
  refine ⟨hfrom, hto, ?_⟩
  intro hn
  have hnone1 : ∀ x, (name, x) ∉ (run ops).edgesbyname.map Prod.fst := by
    intro x hc
    rcases List.mem_map.mp hc with ⟨p, hp, hpx⟩
    have hk := (hInv.names_known p hp).1
    rw [show p.1.1 = name by rw [hpx]] at hk
    rw [hn] at hk
    simp at hk
  have hnone2 : ∀ x, (x, name) ∉ (run ops).edgesbyname.map Prod.fst := by
    intro x hc
    rcases List.mem_map.mp hc with ⟨p, hp, hpx⟩
    have hk := (hInv.names_known p hp).2
    rw [show p.1.2 = name by rw [hpx]] at hk
    rw [hn] at hk
    simp at hk
  exact ⟨hfrom hnone1, hto hnone2⟩

/-- Witness for C10 at an unregistered name on a single-edge graph. -/
theorem C10_adjacency_queries_total_witness :
    getverticesfrom (run [Op.add "a" "b" 1 false]) "z" = [] ∧
    getverticesto (run [Op.add "a" "b" 1 false]) "z" = [] :=
  (C10_adjacency_queries_total [Op.add "a" "b" 1 false] "z").2.2 (by decide)

theorem addedge_existing_false (g : FlowGraph) {tail head : String} {i : Nat} (cap : ℚ)
    (hf : assocFind g.edgesbyname (tail, head) = some i) :
    addedge g tail head cap false =
      { g with edges := modifyIdx g.edges i (fun e => { e with capacity := cap }) } := by
  simp [addedge, hf]

theorem alterflow_false (g : FlowGraph) {tail head : String} {i : Nat} (fl : ℚ)
    (hf : assocFind g.edgesbyname (tail, head) = some i) :
    alterflow g tail head fl false =
      Except.ok { g with edges := modifyIdx g.edges i (fun e => { e with flow := fl }) } := by
  simp [alterflow, hf]

theorem addedge_existing_getcapacity (g : FlowGraph) {tail head : String} {i : Nat}
    (cap : ℚ) (inc : Bool) (hf : assocFind g.edgesbyname (tail, head) = some i)
    (ht : (assocFind g.vertexname2id tail).isSome = true)
    (hh : (assocFind g.vertexname2id head).isSome = true)
    (hi : i < g.edges.length) :
    getcapacity (addedge g tail head cap inc) tail head =
      Except.ok (if inc then (arenaGet g.edges i).capacity + cap else cap) := by
  rw [addedge_existing g cap inc hf]
  rw [getcapacity_some ({ g with edges := modifyIdx g.edges i (fun e =>
      if inc then { e with capacity := e.capacity + cap }
      else { e with capacity := cap }) }) ht hh hf]
  dsimp only
  rw [arenaGet_modifyIdx_self hi]
  cases inc
  · simp
  · simp

theorem nameInv_inj (g : FlowGraph) (hN : NameInv g) {n₁ n₂ : String} {i : Nat}
    (h₁ : assocFind g.vertexname2id n₁ = some i)
    (h₂ : assocFind g.vertexname2id n₂ = some i) : n₁ = n₂ := by
  by_cases he : n₁ = n₂
  · exact he
  · have hm₁ := assocFind_some_mem h₁
    have hm₂ := assocFind_some_mem h₂
    have hcat : ∀ n, (n, i) ∈ g.vertexname2id → n ≠ "s" → n ≠ "t" →
        (n, i) ∈ g.vertexname2id.filter nonST := by
      intro n hm hs ht
      rw [List.mem_filter]
      exact ⟨hm, by simp [nonST, hs, ht]⟩
    have hge : ∀ n, (n, i) ∈ g.vertexname2id.filter nonST → 2 ≤ i := by
      intro n hm
      have hmem : i ∈ (g.vertexname2id.filter nonST).map Prod.snd :=
        List.mem_map_of_mem Prod.snd hm
      rw [hN.dense] at hmem
      exact (List.mem_range'_1.mp hmem).1
    by_cases h₁s : n₁ = "s"
    · by_cases h₂s : n₂ = "s"
      · rw [h₁s, h₂s]
      · have hi0 : i = 0 := hN.s_val _ hm₁ h₁s
        by_cases h₂t : n₂ = "t"
        · have hi1 : i = 1 := hN.t_val _ hm₂ h₂t
          omega
        · have := hge n₂ (hcat n₂ hm₂ h₂s h₂t)
          omega
    · by_cases h₁t : n₁ = "t"
      · have hi1 : i = 1 := hN.t_val _ hm₁ h₁t
        by_cases h₂s : n₂ = "s"
        · have hi0 : i = 0 := hN.s_val _ hm₂ h₂s
          omega
        · by_cases h₂t : n₂ = "t"
          · rw [h₁t, h₂t]
          · have := hge n₂ (hcat n₂ hm₂ h₂s h₂t)
            omega
      · have hf₁ := hcat n₁ hm₁ h₁s h₁t
        by_cases h₂s : n₂ = "s"
        · have hi0 : i = 0 := hN.s_val _ hm₂ h₂s
          have := hge n₁ hf₁
          omega
        · by_cases h₂t : n₂ = "t"
          · have hi1 : i = 1 := hN.t_val _ hm₂ h₂t
            have := hge n₁ hf₁
            omega
          · have hf₂ := hcat n₂ hm₂ h₂s h₂t
            have hnd : ((g.vertexname2id.filter nonST).map Prod.snd).Nodup := by
              rw [hN.dense]
              exact List.nodup_range' _ _
            have heq := List.inj_on_of_nodup_map hnd hf₁ hf₂ rfl
            exact congrArg Prod.fst heq

/-- Claim C1 counterexample: on the single-edge graph `a → b` with capacity
`1.0`, the public operation `alterflow("a", "b", -1.0)` completes and
leaves the edge's flow field at `-1.0`, which is negative — so the claimed
invariant `0 ≤ flow` after every completed update does not hold. -/
theorem C1_counterexample :
    (alterflow (run [Op.add "a" "b" 1 false]) "a" "b" (-1) false).map
      (fun g' => getflow g' "a" "b") = Except.ok (Except.ok (-1)) ∧
    ((-1 : ℚ) < 0) := by
  refine ⟨by decide, by norm_num⟩

/-- Claim C1 (amended): non-additive `alterflow` stores exactly the given
flow value with no bounds check against `[0, capacity]` (and leaves the
capacity unchanged); consequently `0 ≤ flow ≤ capacity` holds after the
call precisely when the caller's value lies in that range, and is violated
whenever it does not. -/
theorem C1_alterflow_writes_exact (ops : List Op) (tail head : String) (fl : ℚ)
    (hedge : (assocFind (run ops).edgesbyname (tail, head)).isSome = true) :
    ∃ g', alterflow (run ops) tail head fl false = Except.ok g' ∧
      getflow g' tail head = Except.ok fl ∧
      getcapacity g' tail head = getcapacity (run ops) tail head := by
  have hInv := run_inv ops
  rcases Option.isSome_iff_exists.mp hedge with ⟨i, hf⟩
  have hmem := assocFind_some_mem hf
  have hi : i < (run ops).edges.length := hInv.idx_lt _ hmem
  have hknown := hInv.names_known _ hmem
  refine ⟨_, alterflow_false (run ops) fl hf, ?_, ?_⟩
  · have hup := getflow_some ({ (run ops) with edges := modifyIdx (run ops).edges i (fun e => { e with flow := fl }) }) hknown.1 hknown.2 hf
    rw [hup]
    dsimp only
    rw [arenaGet_modifyIdx_self hi]
  · have hup := getcapacity_some ({ (run ops) with edges := modifyIdx (run ops).edges i (fun e => { e with flow := fl }) }) hknown.1 hknown.2 hf
    rw [hup]
    dsimp only
    rw [arenaGet_modifyIdx_self hi]
    rw [getcapacity_some (run ops) hknown.1 hknown.2 hf]

/-- Witness for the amended C1: on the edge `a → b` of capacity `5.0`,
`alterflow` with value `3.0` stores exactly `3.0` and keeps the capacity. -/
theorem C1_alterflow_writes_exact_witness :
    ∃ g', alterflow (run [Op.add "a" "b" 5 false]) "a" "b" 3 false = Except.ok g' ∧
      getflow g' "a" "b" = Except.ok 3 ∧
      getcapacity g' "a" "b" = getcapacity (run [Op.add "a" "b" 5 false]) "a" "b" :=
  C1_alterflow_writes_exact [Op.add "a" "b" 5 false] "a" "b" 3 (by decide)

/-- Claim C4 (confirmed): from any reachable graph, `addedge(tail, head, 4.0)`
followed by `addedge(tail, head, 6.0, increaseifexists=True)` leaves a single
edge for the pair whose capacity, as reported by `getcapacity`, is `10.0`,
with the merge done entirely in the wrapper. -/
theorem C4_capacity_merge (ops : List Op) (tail head : String) :
    ((addedge (addedge (run ops) tail head 4 false) tail head 6 true).edgesbyname.map
      Prod.fst).Nodup ∧
    getcapacity (addedge (addedge (run ops) tail head 4 false) tail head 6 true)
      tail head = Except.ok 10 := by
  have hInv := run_inv ops
  refine ⟨(addedge_inv _ tail head 6 true
    (addedge_inv _ tail head 4 false hInv)).edge_keys_nodup, ?_⟩
  rcases hf : assocFind (run ops).edgesbyname (tail, head) with _ | i
  · obtain ⟨hedges1, hfind1, htail1, hhead1⟩ :=
      addedge_new_spec (run ops) tail head 4 false hInv hf
    have hlen : (run ops).edges.length <
        (addedge (run ops) tail head 4 false).edges.length := by
      rw [hedges1]
      simp
    rw [addedge_existing_getcapacity (addedge (run ops) tail head 4 false) 6 true
      hfind1 htail1 hhead1 hlen]
    rw [if_pos rfl, hedges1, arenaGet_append_length]
    norm_num
  · have hmem := assocFind_some_mem hf
    have hi : i < (run ops).edges.length := hInv.idx_lt _ hmem
    have hknown := hInv.names_known _ hmem
    have hf1 : assocFind (addedge (run ops) tail head 4 false).edgesbyname
        (tail, head) = some i := by
      rw [addedge_existing_false (run ops) 4 hf]
      exact hf
    have ht1 : (assocFind (addedge (run ops) tail head 4 false).vertexname2id
        tail).isSome = true := by
      rw [addedge_existing_false (run ops) 4 hf]
      exact hknown.1
    have hh1 : (assocFind (addedge (run ops) tail head 4 false).vertexname2id
        head).isSome = true := by
      rw [addedge_existing_false (run ops) 4 hf]
      exact hknown.2
    have hi1 : i < (addedge (run ops) tail head 4 false).edges.length := by
      rw [addedge_existing_false (run ops) 4 hf]
      dsimp only
      rw [modifyIdx_length]
      exact hi
    rw [addedge_existing_getcapacity (addedge (run ops) tail head 4 false) 6 true
      hf1 ht1 hh1 hi1]
    rw [if_pos rfl]
    rw [addedge_existing_false (run ops) 4 hf]
    dsimp only
    rw [arenaGet_modifyIdx_self hi]
    norm_num

/-- Claim C6 counterexample: submitting `(a, b)` twice with capacities
`4.0` then `6.0` and `increaseifexists=False` leaves capacity `6.0` — the
second submission is resolved by replacement, which is neither the merge
outcome (`10.0`) nor the reject outcome (`4.0`). -/
theorem C6_counterexample :
    getcapacity (addedge (addedge emptyGraph "a" "b" 4 false) "a" "b" 6 false)
      "a" "b" = Except.ok 6 ∧ (6 : ℚ) ≠ 10 ∧ (6 : ℚ) ≠ 4 := by
  refine ⟨by decide, by norm_num, by norm_num⟩

/-- Claim C6 (amended): at most one forward edge per ordered `(tail, head)`
pair exists at any time, and a duplicate `addedge` submission is resolved
either by summing the capacities (`increaseifexists=True`) or by replacing
the stored capacity with the new one (`increaseifexists=False`). -/
theorem C6_unique_edge_and_duplicate_policy (ops : List Op) :
    ((run ops).edgesbyname.map Prod.fst).Nodup ∧
    (∀ tail head (c c₀ : ℚ),
      getcapacity (run ops) tail head = Except.ok c₀ →
      (assocFind (run ops).edgesbyname (tail, head)).isSome = true →
      getcapacity (addedge (run ops) tail head c true) tail head =
        Except.ok (c₀ + c) ∧
      getcapacity (addedge (run ops) tail head c false) tail head =
        Except.ok c) := by
  have hInv := run_inv ops
  refine ⟨hInv.edge_keys_nodup, ?_⟩
  intro tail head c c₀ hc₀ hsome
  rcases Option.isSome_iff_exists.mp hsome with ⟨i, hf⟩
  have hmem := assocFind_some_mem hf
  have hi : i < (run ops).edges.length := hInv.idx_lt _ hmem
  have hknown := hInv.names_known _ hmem
  have hcap : c₀ = (arenaGet (run ops).edges i).capacity := by
    rw [getcapacity_some (run ops) hknown.1 hknown.2 hf] at hc₀
    exact (Except.ok.inj hc₀).symm
  constructor
  · rw [addedge_existing_getcapacity (run ops) c true hf hknown.1 hknown.2 hi]
    rw [if_pos rfl, hcap]
  · rw [addedge_existing_getcapacity (run ops) c false hf hknown.1 hknown.2 hi]
    rw [if_neg (by simp)]

/-- Witness for the amended C6 on the single-edge graph `a → b` of capacity
`4.0`: a duplicate with `6.0` yields `4.0 + 6.0` under merge and `6.0`
under replacement, and the edge-key list is duplicate-free. -/
theorem C6_unique_edge_and_duplicate_policy_witness :
    ((run [Op.add "a" "b" 4 false]).edgesbyname.map Prod.fst).Nodup ∧
    (getcapacity (addedge (run [Op.add "a" "b" 4 false]) "a" "b" 6 true) "a" "b" =
      Except.ok (4 + 6) ∧
     getcapacity (addedge (run [Op.add "a" "b" 4 false]) "a" "b" 6 false) "a" "b" =
      Except.ok 6) :=
  ⟨(C6_unique_edge_and_duplicate_policy [Op.add "a" "b" 4 false]).1,
   (C6_unique_edge_and_duplicate_policy [Op.add "a" "b" 4 false]).2 "a" "b" 6 4
     (by decide) (by decide)⟩

/-- Claim C7 counterexample: after `addedge("s", "a", 1.0)` the name map is
`{s ↦ 0, a ↦ 2}` — its image contains `0` and `2` but not `1`, so the map
is not a bijection onto a dense (contiguous) integer range. -/
theorem C7_counterexample :
    assocFind (run [Op.add "s" "a" 1 false]).vertexname2id "s" = some 0 ∧
    assocFind (run [Op.add "s" "a" 1 false]).vertexname2id "a" = some 2 ∧
    ∀ p ∈ (run [Op.add "s" "a" 1 false]).vertexname2id, p.2 ≠ 1 := by
  refine ⟨by decide, by decide, by decide⟩

/-- Claim C7 (amended): the name-to-id map is injective with `s ↦ 0` and
`t ↦ 1` whenever those names are present, every other distinct name
receives, in first-seen order, exactly the consecutive ids
`2, …, numvertices - 1` (so the image is dense from `2` up, with slots `0`
and `1` reserved for `s` and `t` and present only once those names are
seen), and a repeated name keeps its previously assigned id across any
further calls. -/
theorem C7_vertex_id_assignment (ops : List Op) (more : List Op) :
    (∀ i, assocFind (run ops).vertexname2id "s" = some i → i = 0) ∧
    (∀ i, assocFind (run ops).vertexname2id "t" = some i → i = 1) ∧
    (∀ n₁ n₂ i, assocFind (run ops).vertexname2id n₁ = some i →
      assocFind (run ops).vertexname2id n₂ = some i → n₁ = n₂) ∧
    ((run ops).vertexname2id.filter nonST).map Prod.snd =
      List.range' 2 (numvertices (run ops) - 2) ∧
    (∀ n i, assocFind (run ops).vertexname2id n = some i →
      assocFind (run (ops ++ more)).vertexname2id n = some i) := by
  have hInv := run_inv ops
  have hN := hInv.name_inv
  refine ⟨?_, ?_, ?_, hN.dense, ?_⟩
  · intro i h
    exact hN.s_val _ (assocFind_some_mem h) rfl
  · intro i h
    exact hN.t_val _ (assocFind_some_mem h) rfl
  · intro n₁ n₂ i h₁ h₂
    exact nameInv_inj (run ops) hN h₁ h₂
  · intro n i h
    rw [show run (ops ++ more) = more.foldl applyOp (run ops) from by
      simp [run, List.foldl_append]]
    exact foldl_find_mono more (run ops) hInv h

/-- Witness for the amended C7: injectivity applied at `s` on a concrete
graph, and id stability of `a` across a subsequent `addedge`. -/
theorem C7_vertex_id_assignment_witness :
    ("s" : String) = "s" ∧
    assocFind (run ([Op.add "s" "a" 1 false] ++ [Op.add "a" "t" 1 false])).vertexname2id
      "a" = some 2 :=
  ⟨(C7_vertex_id_assignment [Op.add "s" "a" 1 false] [Op.add "a" "t" 1 false]).2.2.1
      "s" "s" 0 (by decide) (by decide),
   (C7_vertex_id_assignment [Op.add "s" "a" 1 false] [Op.add "a" "t" 1 false]).2.2.2.2
      "a" 2 (by decide)⟩

end MaxFlowSpec
